import Mathlib

/-!
# Verification of the nubi-proxy audio/turn pipeline (src/server.js)

Shallow embedding of the WAV codec helpers (`wavHeaderPCM16`,
`pcm16ToWavBuffer`, `findChunk`, `parseWavPcm16`), the PCM transforms
(`stereoToMonoPcm16`, `resamplePcm16MonoLinear`) and the request handlers'
pure control flow (`/stt` threshold check, `/chat` history update, `/tts`
normalization) from `src/server.js`.

Modelling conventions:
* A Node `Buffer` is a `List Nat` of bytes; every entry of a real buffer is
  `< 256`, which the readers make explicit by reducing each fetched entry
  modulo 256 (`byteAt`).
* Node's `buf.readUInt16LE` / `readUInt32LE` / `readInt16LE` throw a
  `RangeError` when the access runs past the end of the buffer.  Reads whose
  call sites are always in bounds (those inside `findChunk`'s guarded loop,
  and the loops of the PCM transforms) are modelled as total functions;
  the four fmt-chunk reads in `parseWavPcm16`, which *can* be out of bounds,
  are modelled with `Option` so that the thrown `RangeError` is visible as a
  distinct outcome (`ParseResult.rangeError`).
* Node's `writeUInt16LE` / `writeUInt32LE` throw `ERR_OUT_OF_RANGE` for a
  value that is negative, non-integral or too large for the field.  The
  encoder (`wavHeaderPCM16`) therefore returns `none` — modelling the
  thrown error — unless every header field, including `byteRate` and
  `36 + dataSize`, fits its 16/32-bit field and `dataSize` is an integer;
  for in-range values the byte images `u16le` / `u32le` use exact `% 2 ^ 8`
  arithmetic.
* JavaScript numbers are IEEE doubles; `pcm16ToWavBuffer`'s intermediate
  `numSamples` and the interpolation arithmetic of `resamplePcm16MonoLinear`
  are modelled in exact rational arithmetic (`ℚ`).  All quantities the code
  serializes are exact integers in every execution covered by a claim, so
  the rational model coincides with the double-precision computation there.
* Node's `ascii` string decoding clears the high bit of every byte before
  comparing, hence the `% 128` in `ascii4`.
-/

/-! ## Byte-level primitives (Node `Buffer` accessors) -/

/-- Byte of a buffer at index `i` (0 beyond the end, masked to a byte). -/
def byteAt (buf : List Nat) (i : Nat) : Nat := buf.getD i 0 % 256

/-- Model of `buf.readUInt16LE off` at an in-bounds call site. -/
def readUInt16LE (buf : List Nat) (off : Nat) : Nat :=
  byteAt buf off + 256 * byteAt buf (off + 1)

/-- Model of `buf.readUInt32LE off` at an in-bounds call site. -/
def readUInt32LE (buf : List Nat) (off : Nat) : Nat :=
  byteAt buf off + 256 * byteAt buf (off + 1)
    + 65536 * byteAt buf (off + 2) + 16777216 * byteAt buf (off + 3)

/-- Model of `buf.readUInt16LE off` where the access can be out of bounds:
`none` models the thrown `RangeError`. -/
def readUInt16LEOpt (buf : List Nat) (off : Nat) : Option Nat :=
  if off + 2 ≤ buf.length then some (readUInt16LE buf off) else none

/-- Model of `buf.readUInt32LE off` where the access can be out of bounds. -/
def readUInt32LEOpt (buf : List Nat) (off : Nat) : Option Nat :=
  if off + 4 ≤ buf.length then some (readUInt32LE buf off) else none

/-- Model of `buf.readInt16LE off` (two's-complement decode). -/
def readInt16LE (buf : List Nat) (off : Nat) : Int :=
  let u := readUInt16LE buf off
  if u < 32768 then (u : Int) else (u : Int) - 65536

/-- Model of `buf.writeInt16LE v off`: the two bytes stored for `v`.
JavaScript range-checks `v` to `[-32768, 32767]`; every value written by the
embedded code is proved to be in that range. -/
def writeInt16LE (v : Int) : List Nat :=
  let u := (v % 65536).toNat
  [u % 256, u / 256]

/-- Little-endian serialization of a 16-bit header field. -/
def u16le (n : Nat) : List Nat := [n % 256, n / 256 % 256]

/-- Little-endian serialization of a 32-bit header field. -/
def u32le (n : Nat) : List Nat :=
  [n % 256, n / 256 % 256, n / 65536 % 256, n / 16777216 % 256]

/-- Model of `buf.toString("ascii", off, off + 4)`: Node's ascii decoding
clears the high bit of each byte. -/
def ascii4 (buf : List Nat) (off : Nat) : List Nat :=
  ((buf.drop off).take 4).map (fun b => b % 128)

/-- ASCII codes of `"RIFF"`. -/
def riffCC : List Nat := [82, 73, 70, 70]

/-- ASCII codes of `"WAVE"`. -/
def waveCC : List Nat := [87, 65, 86, 69]

/-- ASCII codes of `"fmt "`. -/
def fmtCC : List Nat := [102, 109, 116, 32]

/-- ASCII codes of `"data"`. -/
def dataCC : List Nat := [100, 97, 116, 97]

/-! ## WavCodec: `wavHeaderPCM16`, `pcm16ToWavBuffer` (src/server.js:26-53) -/

/-- Model of `wavHeaderPCM16({sampleRate, numChannels, numSamples})`.
`numSamples` is rational because the call site divides by `numChannels`
with JavaScript `/`.  Each `write*LE` call throws `ERR_OUT_OF_RANGE` when
its value is negative, non-integral or exceeds the field, so the model
returns `none` unless `dataSize` is a nonnegative integer and all of
`36 + dataSize`, `sampleRate`, `byteRate` and `dataSize` fit 32 bits and
`numChannels`, `blockAlign` fit 16 bits. -/
def wavHeaderPCM16 (sampleRate numChannels : Nat) (numSamples : ℚ) : Option (List Nat) :=
  let bytesPerSample := 2
  let blockAlign := numChannels * bytesPerSample
  let byteRate := sampleRate * blockAlign
  let dataSize : ℚ := numSamples * (blockAlign : ℚ)
  let ds : Nat := (Int.floor dataSize).toNat
  if dataSize = ((ds : Nat) : ℚ) ∧ 36 + ds < 4294967296 ∧ numChannels < 65536 ∧
      sampleRate < 4294967296 ∧ byteRate < 4294967296 ∧ blockAlign < 65536 then
    some (riffCC ++ u32le (36 + ds) ++ waveCC
      ++ fmtCC ++ u32le 16 ++ u16le 1 ++ u16le numChannels
      ++ u32le sampleRate ++ u32le byteRate ++ u16le blockAlign ++ u16le 16
      ++ dataCC ++ u32le ds)
  else none

/-- Model of `pcm16ToWavBuffer(pcmBuf, sampleRate, numChannels)`: `none`
when the header serialization throws.  With `numChannels = 0` the
JavaScript division makes `numSamples` (and then `dataSize`) `Infinity` or
`NaN`, which the header writes reject; rationals have no such values, so
that case is excluded explicitly. -/
def pcm16ToWavBuffer (pcmBuf : List Nat) (sampleRate numChannels : Nat) : Option (List Nat) :=
  if numChannels = 0 then none
  else
    let numSamples : ℚ := ((pcmBuf.length / 2 : Nat) : ℚ) / (numChannels : ℚ)
    (wavHeaderPCM16 sampleRate numChannels numSamples).map (fun header => header ++ pcmBuf)

/-! ## WavCodec: `findChunk`, `parseWavPcm16` (src/server.js:56-87) -/

/-- Result record of `findChunk` (the source also returns the chunk id,
which no caller uses). -/
structure Chunk where
  size : Nat
  dataOff : Nat
deriving DecidableEq

/-- Model of `findChunk(buf, fourcc)`; `off` is the loop variable, started
at 12 by the source.  The `readUInt32LE` at `off + 4` is in bounds thanks to
the loop guard `off + 8 <= buf.length`. -/
def findChunk (buf fourcc : List Nat) (off : Nat) : Option Chunk :=
  if h : off + 8 ≤ buf.length then
    let size := readUInt32LE buf (off + 4)
    let dataOff := off + 8
    if ascii4 buf off = fourcc then some ⟨size, dataOff⟩
    else findChunk buf fourcc (dataOff + size + size % 2)
  else none
termination_by buf.length - off
decreasing_by simp_wf; omega

/-- Decoded WAV data returned by a successful `parseWavPcm16`. -/
structure WavPcm where
  sampleRate : Nat
  numChannels : Nat
  pcm : List Nat
deriving DecidableEq

/-- Outcome of `parseWavPcm16`: the source returns `null` for every
validation failure, returns a parsed record on success, and throws a
`RangeError` if one of the four fmt-field reads runs past the end of the
buffer. -/
inductive ParseResult where
  | rangeError
  | nullResult
  | parsed (w : WavPcm)
deriving DecidableEq

/-- Model of `parseWavPcm16(buf)`.  The `buf.subarray(data.dataOff,
data.dataOff + data.size)` clamps both ends to the buffer, which
`drop`/`take` reproduce exactly. -/
def parseWavPcm16 (buf : List Nat) : ParseResult :=
  if buf.length < 44 then .nullResult
  else if ascii4 buf 0 ≠ riffCC then .nullResult
  else if ascii4 buf 8 ≠ waveCC then .nullResult
  else
    match findChunk buf fmtCC 12, findChunk buf dataCC 12 with
    | some fmt, some data =>
      match readUInt16LEOpt buf (fmt.dataOff + 0), readUInt16LEOpt buf (fmt.dataOff + 2),
            readUInt32LEOpt buf (fmt.dataOff + 4), readUInt16LEOpt buf (fmt.dataOff + 14) with
      | some audioFormat, some numChannels, some sampleRate, some bitsPerSample =>
        if audioFormat ≠ 1 then .nullResult
        else if bitsPerSample ≠ 16 then .nullResult
        else .parsed ⟨sampleRate, numChannels, (buf.drop data.dataOff).take data.size⟩
      | _, _, _, _ => .rangeError
    | _, _ => .nullResult

/-! ## AudioTransform: `stereoToMonoPcm16` (src/server.js:89-98) -/

/-- Model of `(L + R) >> 1`: `L + R` fits in an `Int32`, on which
JavaScript's arithmetic right shift by one is floor division by two. -/
def sar1 (x : Int) : Int := Int.fdiv x 2

/-- Model of `stereoToMonoPcm16(stereoPcm)`.  The loop writes two output
bytes per frame; every read and write is in bounds. -/
def stereoToMonoPcm16 (stereoPcm : List Nat) : List Nat :=
  let frames := stereoPcm.length / 4
  (List.range frames).flatMap fun i =>
    let L := readInt16LE stereoPcm (i * 4)
    let R := readInt16LE stereoPcm (i * 4 + 2)
    writeInt16LE (sar1 (L + R))

/-! ## AudioTransform: `resamplePcm16MonoLinear` (src/server.js:101-119) -/

/-- Fractional source position `t = i * (inRate / outRate)` of output
index `i`, in exact arithmetic. -/
def srcPos (inRate outRate i : Nat) : ℚ := (i : ℚ) * ((inRate : ℚ) / (outRate : ℚ))

/-- Model of `i0 = Math.floor(t)` (`t` is nonnegative). -/
def srcIdx0 (inRate outRate i : Nat) : Nat := (Int.floor (srcPos inRate outRate i)).toNat

/-- Model of `i1 = Math.min(i0 + 1, inLen - 1)`. -/
def srcIdx1 (inRate outRate i inLen : Nat) : Nat :=
  min (srcIdx0 inRate outRate i + 1) (inLen - 1)

/-- Model of `Math.round` on the nonadversarial range used here:
round half toward positive infinity. -/
def jsRound (x : ℚ) : Int := Int.floor (x + 1 / 2)

/-- Model of `resamplePcm16MonoLinear(pcm, inRate, outRate)`. -/
def resamplePcm16MonoLinear (pcm : List Nat) (inRate outRate : Nat) : List Nat :=
  if inRate = outRate then pcm
  else
    let inLen := pcm.length / 2
    let outLen := inLen * outRate / inRate
    (List.range outLen).flatMap fun i =>
      let t := srcPos inRate outRate i
      let i0 := srcIdx0 inRate outRate i
      let i1 := srcIdx1 inRate outRate i inLen
      let frac : ℚ := t - (i0 : ℚ)
      let s0 := readInt16LE pcm (i0 * 2)
      let s1 := readInt16LE pcm (i1 * 2)
      writeInt16LE (jsRound ((s0 : ℚ) + ((s1 : ℚ) - (s0 : ℚ)) * frac))

/-! ## ConversationStore and the `/chat` handler (src/server.js:149-184) -/

/-- Role of a conversation turn. -/
inductive Role where
  | user
  | assistant
deriving DecidableEq

/-- One `{role, content}` entry of a session history.  JavaScript strings
are modelled as lists of characters. -/
structure Turn where
  role : Role
  content : List Char
deriving DecidableEq

/-- Model of JavaScript `String.prototype.trim`: strip whitespace from both
ends. -/
def jsTrim (s : List Char) : List Char :=
  ((s.dropWhile Char.isWhitespace).reverse.dropWhile Char.isWhitespace).reverse

/-- Model of `history.push(t); if (history.length > 8)
history.splice(0, history.length - 8)` — the append-then-trim step the
`/chat` handler performs after the user turn and again after the assistant
turn.  `splice(0, k)` removes the first `k` entries. -/
def pushTrim (history : List Turn) (t : Turn) : List Turn :=
  let h := history ++ [t]
  if h.length > 8 then h.drop (h.length - 8) else h

/-- Outcome of the chat-completions provider call as the handler observes
it: the SDK throws on a non-success status (caught by the handler's
`catch`), and on success `resp.choices?.[0]?.message?.content` is either
absent or a string. -/
inductive ChatProviderResult where
  | failure
  | success (content : Option (List Char))
deriving DecidableEq

/-- Model of the `/chat` handler body: input text and the session's current
history in, updated history and the JSON `reply` value out.  Mirrors
src/server.js:151-183: trim, early return on empty text, push user turn,
trim to 8, call provider (a throw lands in the `catch`, which responds
`{reply: ""}` with status 500), push the trimmed reply as an assistant turn
unconditionally, trim to 8. -/
def chatTurn (history : List Turn) (text : List Char) (pr : ChatProviderResult) :
    List Turn × List Char :=
  let t := jsTrim text
  if t = [] then (history, [])
  else
    let h1 := pushTrim history ⟨.user, t⟩
    match pr with
    | .failure => (h1, [])
    | .success c =>
      let reply := jsTrim (c.getD [])
      (pushTrim h1 ⟨.assistant, reply⟩, reply)

/-! ## The `/stt` handler (src/server.js:126-146) -/

/-- What the `/stt` handler does before any provider interaction: either it
responds immediately with a transcript JSON (the short-circuit for missing
or sub-threshold bodies), or it forwards a WAV-wrapped buffer to the
transcription provider; `respondError` models a throw inside the `try`
block (e.g. the WAV wrapping's `ERR_OUT_OF_RANGE`) reaching the `catch`,
which responds 500 `{text: ""}`. -/
inductive SttAction where
  | respondText (t : List Char)
  | respondError
  | transcribe (wav : List Nat)
deriving DecidableEq

/-- Session memory: the process-wide `memory` map, as an association list. -/
def Memory := List (List Char × List Turn)

/-- Model of the `/stt` handler front end (src/server.js:127-134): `none`
models a missing or non-`Buffer` body.  The handler never touches the
session `memory`, which the model threads through unchanged. -/
def sttTurn (mem : Memory) (body : Option (List Nat)) : SttAction × Memory :=
  match body with
  | none => (.respondText [], mem)
  | some b =>
    if b.length < 1000 then (.respondText [], mem)
    else
      match pcm16ToWavBuffer b 16000 1 with
      | some wav => (.transcribe wav, mem)
      | none => (.respondError, mem)

/-! ## The `/tts` normalization pipeline (src/server.js:211-248) -/

/-- Model of the `/tts` response normalization (src/server.js:211-248):
parse the provider WAV; on parse failure pass the bytes through; otherwise
downmix stereo to mono, resample to the fixed `TARGET_RATE = 24000` when
needed, and re-encode.  `none` models the `catch` path — a thrown
`RangeError` from the parse, or a thrown `ERR_OUT_OF_RANGE` from the final
re-encode, yields the 500 `tts_error` response with no audio body. -/
def ttsNormalize (wavBuf : List Nat) : Option (List Nat) :=
  match parseWavPcm16 wavBuf with
  | .rangeError => none
  | .nullResult => some wavBuf
  | .parsed w =>
    let pcm1 := if w.numChannels = 2 then stereoToMonoPcm16 w.pcm else w.pcm
    let ch1 := if w.numChannels = 2 then 1 else w.numChannels
    let pcm2 :=
      if w.sampleRate ≠ 24000 then resamplePcm16MonoLinear pcm1 w.sampleRate 24000 else pcm1
    let sr2 := if w.sampleRate ≠ 24000 then 24000 else w.sampleRate
    pcm16ToWavBuffer pcm2 sr2 ch1

/-! ## Helper lemmas: `findChunk` unfolding -/

/-- One iteration of `findChunk`'s guarded loop. -/
lemma findChunk_step (buf fourcc : List Nat) (off : Nat) (h : off + 8 ≤ buf.length) :
    findChunk buf fourcc off =
      if ascii4 buf off = fourcc then some ⟨readUInt32LE buf (off + 4), off + 8⟩
      else findChunk buf fourcc
        (off + 8 + readUInt32LE buf (off + 4) + readUInt32LE buf (off + 4) % 2) := by
  rw [findChunk, dif_pos h]

/-- The loop of `findChunk` terminates with `null` once fewer than 8 bytes
remain. -/
lemma findChunk_stop (buf fourcc : List Nat) (off : Nat) (h : ¬ off + 8 ≤ buf.length) :
    findChunk buf fourcc off = none := by
  rw [findChunk, dif_neg h]

/-- A found chunk starts inside the buffer: `dataOff ≤ buf.length`. -/
lemma findChunk_dataOff_le (buf fourcc : List Nat) (off : Nat) (c : Chunk)
    (h : findChunk buf fourcc off = some c) : c.dataOff ≤ buf.length := by
  by_cases hb : off + 8 ≤ buf.length
  · rw [findChunk_step buf fourcc off hb] at h
    by_cases hid : ascii4 buf off = fourcc
    · rw [if_pos hid] at h
      cases h
      exact hb
    · rw [if_neg hid] at h
      exact findChunk_dataOff_le buf fourcc _ c h
  · rw [findChunk_stop buf fourcc off hb] at h
    cases h
termination_by buf.length - off
decreasing_by simp_wf; omega

/-! ## Helper lemmas: the serialized header layout -/

/-- Generic 44-byte PCM16 WAVE image: the byte layout shared by every
output of `pcm16ToWavBuffer` (field values `a` = RIFF length field,
`br` = byte rate, `ba` = block align, `L` = data length field). -/
def encBytes (a ch rate br ba L : Nat) (pcm : List Nat) : List Nat :=
  riffCC ++ u32le a ++ waveCC ++ fmtCC ++ u32le 16 ++ u16le 1 ++ u16le ch
    ++ u32le rate ++ u32le br ++ u16le ba ++ u16le 16 ++ dataCC ++ u32le L ++ pcm

lemma encBytes_length (a ch rate br ba L : Nat) (pcm : List Nat) :
    (encBytes a ch rate br ba L pcm).length = 44 + pcm.length := by
  simp [encBytes, riffCC, waveCC, fmtCC, dataCC, u32le, u16le]
  omega

lemma encBytes_ascii0 (a ch rate br ba L : Nat) (pcm : List Nat) :
    ascii4 (encBytes a ch rate br ba L pcm) 0 = riffCC := rfl

lemma encBytes_ascii8 (a ch rate br ba L : Nat) (pcm : List Nat) :
    ascii4 (encBytes a ch rate br ba L pcm) 8 = waveCC := rfl

lemma encBytes_ascii12 (a ch rate br ba L : Nat) (pcm : List Nat) :
    ascii4 (encBytes a ch rate br ba L pcm) 12 = fmtCC := rfl

lemma encBytes_ascii36 (a ch rate br ba L : Nat) (pcm : List Nat) :
    ascii4 (encBytes a ch rate br ba L pcm) 36 = dataCC := rfl

lemma encBytes_read16 (a ch rate br ba L : Nat) (pcm : List Nat) :
    readUInt32LE (encBytes a ch rate br ba L pcm) 16 = 16 := by
  simp [encBytes, riffCC, waveCC, fmtCC, dataCC, u32le, u16le, readUInt32LE, byteAt]

lemma encBytes_read20 (a ch rate br ba L : Nat) (pcm : List Nat) :
    readUInt16LE (encBytes a ch rate br ba L pcm) 20 = 1 := by
  simp [encBytes, riffCC, waveCC, fmtCC, dataCC, u32le, u16le, readUInt16LE, byteAt]

lemma encBytes_read22 (a ch rate br ba L : Nat) (pcm : List Nat) :
    readUInt16LE (encBytes a ch rate br ba L pcm) 22 = ch % 65536 := by
  simp [encBytes, riffCC, waveCC, fmtCC, dataCC, u32le, u16le, readUInt16LE, byteAt]
  omega

lemma encBytes_read24 (a ch rate br ba L : Nat) (pcm : List Nat) :
    readUInt32LE (encBytes a ch rate br ba L pcm) 24 = rate % 4294967296 := by
  simp [encBytes, riffCC, waveCC, fmtCC, dataCC, u32le, u16le, readUInt32LE, byteAt]
  omega

lemma encBytes_read34 (a ch rate br ba L : Nat) (pcm : List Nat) :
    readUInt16LE (encBytes a ch rate br ba L pcm) 34 = 16 := by
  simp [encBytes, riffCC, waveCC, fmtCC, dataCC, u32le, u16le, readUInt16LE, byteAt]

lemma encBytes_read40 (a ch rate br ba L : Nat) (pcm : List Nat) :
    readUInt32LE (encBytes a ch rate br ba L pcm) 40 = L % 4294967296 := by
  simp [encBytes, riffCC, waveCC, fmtCC, dataCC, u32le, u16le, readUInt32LE, byteAt]
  omega

lemma encBytes_drop44 (a ch rate br ba L : Nat) (pcm : List Nat) :
    (encBytes a ch rate br ba L pcm).drop 44 = pcm := rfl

lemma encBytes_findChunk_fmt (a ch rate br ba L : Nat) (pcm : List Nat) :
    findChunk (encBytes a ch rate br ba L pcm) fmtCC 12 = some ⟨16, 20⟩ := by
  rw [findChunk_step _ _ _ (by rw [encBytes_length]; omega)]
  rw [if_pos (encBytes_ascii12 a ch rate br ba L pcm)]
  norm_num [encBytes_read16]

lemma encBytes_findChunk_data (a ch rate br ba L : Nat) (pcm : List Nat) :
    findChunk (encBytes a ch rate br ba L pcm) dataCC 12 = some ⟨L % 4294967296, 44⟩ := by
  rw [findChunk_step _ _ _ (by rw [encBytes_length]; omega)]
  rw [if_neg (by rw [encBytes_ascii12]; decide)]
  norm_num [encBytes_read16]
  rw [findChunk_step _ _ _ (by rw [encBytes_length]; omega)]
  rw [if_pos (encBytes_ascii36 a ch rate br ba L pcm)]
  norm_num [encBytes_read40]

/-- Parsing any serialized 44-byte PCM16 WAVE image recovers the sample
rate, channel count and payload. -/
lemma parse_encBytes (a ch rate br ba L : Nat) (pcm : List Nat)
    (hch : ch < 65536) (hr : rate < 4294967296) (hL : L = pcm.length)
    (hsz : L < 4294967296) :
    parseWavPcm16 (encBytes a ch rate br ba L pcm) = .parsed ⟨rate, ch, pcm⟩ := by
  have hlen := encBytes_length a ch rate br ba L pcm
  have r1 : readUInt16LEOpt (encBytes a ch rate br ba L pcm) (20 + 0) = some 1 := by
    rw [readUInt16LEOpt, if_pos (by omega)]
    norm_num [encBytes_read20]
  have r2 : readUInt16LEOpt (encBytes a ch rate br ba L pcm) (20 + 2) = some (ch % 65536) := by
    rw [readUInt16LEOpt, if_pos (by omega)]
    norm_num [encBytes_read22]
  have r3 : readUInt32LEOpt (encBytes a ch rate br ba L pcm) (20 + 4)
      = some (rate % 4294967296) := by
    rw [readUInt32LEOpt, if_pos (by omega)]
    norm_num [encBytes_read24]
  have r4 : readUInt16LEOpt (encBytes a ch rate br ba L pcm) (20 + 14) = some 16 := by
    rw [readUInt16LEOpt, if_pos (by omega)]
    norm_num [encBytes_read34]
  unfold parseWavPcm16
  rw [if_neg (by omega)]
  rw [if_neg (by simp [encBytes_ascii0])]
  rw [if_neg (by simp [encBytes_ascii8])]
  rw [encBytes_findChunk_fmt, encBytes_findChunk_data]
  dsimp only
  rw [r1, r2, r3, r4]
  dsimp only
  rw [if_neg (by decide), if_neg (by decide)]
  rw [encBytes_drop44]
  rw [Nat.mod_eq_of_lt hch, Nat.mod_eq_of_lt hr, Nat.mod_eq_of_lt hsz, hL, List.take_length]

/-- Every successful `pcm16ToWavBuffer` output with a whole-frame payload
is a serialized 44-byte PCM16 WAVE image with `dataSize` equal to the
payload byte length; the encode succeeds (no `ERR_OUT_OF_RANGE` throw)
exactly because all header fields fit their widths. -/
lemma pcm16ToWavBuffer_eq (pcm : List Nat) (rate ch n : Nat) (hch : ch = 1 ∨ ch = 2)
    (hlen : pcm.length = 2 * ch * n) (hds : 36 + pcm.length < 4294967296)
    (hr : rate < 4294967296) (hbr : rate * (ch * 2) < 4294967296) :
    pcm16ToWavBuffer pcm rate ch =
      some (encBytes (36 + pcm.length) ch rate (rate * (ch * 2)) (ch * 2) pcm.length pcm) := by
  have hch0 : 0 < ch := by rcases hch with h | h <;> omega
  simp only [pcm16ToWavBuffer, wavHeaderPCM16, encBytes]
  rw [if_neg hch0.ne']
  have hq : (((pcm.length / 2 : Nat) : ℚ) / ((ch : Nat) : ℚ)) * (((ch * 2 : Nat) : ℚ))
      = ((pcm.length : Nat) : ℚ) := by
    have h2 : pcm.length / 2 = ch * n := by
      rw [hlen, Nat.mul_assoc]
      omega
    have hc : ((ch : ℚ)) ≠ 0 := by exact_mod_cast hch0.ne'
    rw [h2, hlen]
    push_cast
    field_simp
    ring
  have hkey : (Int.floor ((pcm.length : Nat) : ℚ)).toNat = pcm.length := by
    rw [Int.floor_natCast]
    simp
  simp only [hq, hkey]
  rw [if_pos ⟨trivial, by omega, by rcases hch with h | h <;> omega, hr, hbr,
    by rcases hch with h | h <;> omega⟩]
  simp [List.append_assoc]

/-- Round-trip core: encoding a whole-frame payload whose header fields fit
their widths succeeds and parsing the resulting image recovers the rate,
channel count and payload (shared by C1 and C7). -/
lemma parse_encode (pcm : List Nat) (rate ch n : Nat)
    (hch : ch = 1 ∨ ch = 2) (hlen : pcm.length = 2 * ch * n)
    (hds : 36 + pcm.length < 4294967296) (hbr : rate * (ch * 2) < 4294967296) :
    pcm16ToWavBuffer pcm rate ch =
        some (encBytes (36 + pcm.length) ch rate (rate * (ch * 2)) (ch * 2)
          pcm.length pcm) ∧
      parseWavPcm16 (encBytes (36 + pcm.length) ch rate (rate * (ch * 2)) (ch * 2)
          pcm.length pcm) = .parsed ⟨rate, ch, pcm⟩ := by
  have hr : rate < 4294967296 := by rcases hch with h | h <;> subst h <;> omega
  exact ⟨pcm16ToWavBuffer_eq pcm rate ch n hch hlen hds hr hbr,
    parse_encBytes _ _ _ _ _ _ _ (by rcases hch with h | h <;> omega) hr rfl (by omega)⟩

/-! ## Claim C1: WAV encode/decode round trip -/

/-- C1 counterexample: at the claim-admissible input `pcm = []`,
`channels = 2`, `sampleRate = 2^31` (positive, channels in {1,2}), the
encoder itself fails: `byteRate = 2^31 * 4 = 2^33` does not fit the 32-bit
field and `writeUInt32LE` throws `ERR_OUT_OF_RANGE`, so encode never
produces bytes and `decode(encode(pcm))` cannot return the buffer — the
round-trip law is false for arbitrary positive sample rates. -/
theorem wav_roundtrip_counterexample :
    (0 : Nat) < 2147483648 ∧ pcm16ToWavBuffer [] 2147483648 2 = none := by
  refine ⟨by norm_num, ?_⟩
  simp only [pcm16ToWavBuffer, wavHeaderPCM16]
  rw [if_neg (by norm_num : (2 : Nat) ≠ 0)]
  rw [if_neg (fun h => absurd h.2.2.2.2.1 (by norm_num))]
  rfl

/-- C1 (amended): for every valid PcmBuffer (byte payload, channels 1 or 2,
positive sample rate, a whole number `n` of frames — including zero) whose
serialized header fields fit their 32-bit widths
(`36 + byteLength < 2^32` and `byteRate = rate * channels * 2 < 2^32`),
the encoder succeeds and decoding its bytes returns the same sample rate,
the same channel count, and a byte-for-byte equal payload. -/
theorem wav_roundtrip (pcm : List Nat) (rate ch n : Nat)
    (hbytes : ∀ b ∈ pcm, b < 256) (hch : ch = 1 ∨ ch = 2) (hr0 : 0 < rate)
    (hlen : pcm.length = 2 * ch * n) (hds : 36 + pcm.length < 4294967296)
    (hbr : rate * (ch * 2) < 4294967296) :
    ∃ bytes, pcm16ToWavBuffer pcm rate ch = some bytes ∧
      parseWavPcm16 bytes = .parsed ⟨rate, ch, pcm⟩ := by
  have h := parse_encode pcm rate ch n hch hlen hds hbr
  exact ⟨_, h.1, h.2⟩

/-- Witness for C1 at a concrete stereo one-frame buffer, and at the empty
payload. -/
theorem wav_roundtrip_witness :
    (∃ bytes, pcm16ToWavBuffer [1, 2, 255, 0] 24000 2 = some bytes ∧
        parseWavPcm16 bytes = .parsed ⟨24000, 2, [1, 2, 255, 0]⟩) ∧
      ∃ bytes, pcm16ToWavBuffer [] 16000 1 = some bytes ∧
        parseWavPcm16 bytes = .parsed ⟨16000, 1, []⟩ :=
  ⟨wav_roundtrip [1, 2, 255, 0] 24000 2 1 (by decide) (by decide) (by decide)
      (by decide) (by decide) (by decide),
    wav_roundtrip [] 16000 1 0 (by decide) (by decide) (by decide)
      (by decide) (by decide) (by decide)⟩

/-! ## Claim C2: bounded conversation history -/

/-- C2: after every append-then-trim step of the `/chat` handler, the
history holds at most the configured bound of 8 turns, and the result is
exactly the original history plus the new turn with the oldest entries
dropped from the front (FIFO eviction preserving the order of the rest). -/
theorem chat_history_bound (history : List Turn) (t : Turn) :
    (pushTrim history t).length ≤ 8 ∧
      pushTrim history t = (history ++ [t]).drop ((history ++ [t]).length - 8) := by
  unfold pushTrim
  by_cases hl : (history ++ [t]).length > 8
  · rw [if_pos hl]
    refine ⟨?_, rfl⟩
    rw [List.length_drop]
    omega
  · rw [if_neg hl]
    constructor
    · omega
    · rw [Nat.sub_eq_zero_of_le (by omega), List.drop_zero]

/-! ## Claim C9: resampling at equal rates is the identity -/

/-- C9: `resamplePcm16MonoLinear(pcm, r, r)` returns the input buffer
unchanged for every buffer and every rate. -/
theorem resample_identity (pcm : List Nat) (r : Nat) :
    resamplePcm16MonoLinear pcm r r = pcm := by
  simp [resamplePcm16MonoLinear]

/-! ## Claim C8: sub-threshold capture buffers short-circuit `/stt` -/

/-- C8: a present body shorter than 1000 bytes makes the `/stt` handler
respond immediately with an empty transcript (a success response, not an
error), leaving the session memory untouched. -/
theorem stt_below_threshold (mem : Memory) (b : List Nat) (hb : b.length < 1000) :
    sttTurn mem (some b) = (.respondText [], mem) := by
  simp [sttTurn, hb]

/-- Witness for C8 at the spec's scenario: a 500-byte all-zero capture
buffer. -/
theorem stt_below_threshold_witness :
    (List.replicate 500 (0 : Nat)).length < 1000 ∧
      sttTurn ([] : Memory) (some (List.replicate 500 (0 : Nat)))
        = (.respondText [], ([] : Memory)) :=
  ⟨by rw [List.length_replicate]; omega,
    stt_below_threshold ([] : Memory) (List.replicate 500 (0 : Nat))
      (by rw [List.length_replicate]; omega)⟩

/-! ## Claim C6: empty-after-trim turns -/

/-- C6 counterexample: with a non-empty user text and a successful provider
response whose `content` is absent, the `/chat` handler *does* append an
assistant turn (with empty content) to the history — the resulting history
is not just the user turn, refuting the claim that no assistant turn is
appended when the provider reply is empty or absent. -/
theorem chat_empty_reply_counterexample :
    (chatTurn [] ([ 'h', 'i' ]) (.success none)).1
        = [⟨.user, [ 'h', 'i' ]⟩, ⟨.assistant, []⟩] ∧
      (chatTurn [] ([ 'h', 'i' ]) (.success none)).1 ≠ [⟨.user, [ 'h', 'i' ]⟩] ∧
      (chatTurn [] ([ 'h', 'i' ]) (.success none)).2 = [] := by
  refine ⟨?_, ?_, ?_⟩ <;> decide

/-- C6 amended: a user text that is empty after trimming is a no-op that
returns an empty reply and leaves the history unchanged; a provider
*failure* (thrown non-success status) appends only the user turn and yields
reply `""`; but a *successful* provider response appends an assistant turn
unconditionally — including an empty-content turn when the reply is empty
or absent. -/
theorem chat_empty_amended (history : List Turn) (text : List Char) :
    (∀ pr, jsTrim text = [] → chatTurn history text pr = (history, [])) ∧
      (jsTrim text ≠ [] →
        chatTurn history text .failure = (pushTrim history ⟨.user, jsTrim text⟩, [])) ∧
      (∀ c, jsTrim text ≠ [] →
        chatTurn history text (.success c) =
          (pushTrim (pushTrim history ⟨.user, jsTrim text⟩)
              ⟨.assistant, jsTrim (c.getD [])⟩,
            jsTrim (c.getD []))) := by
  refine ⟨fun pr h => ?_, fun h => ?_, fun c h => ?_⟩
  · simp [chatTurn, h]
  · simp [chatTurn, h]
  · simp [chatTurn, h]

/-- Witness for C6's amended statement: whitespace-only text is a no-op,
and a present empty reply appends an empty assistant turn. -/
theorem chat_empty_amended_witness :
    chatTurn [] ([ ' ' ]) .failure = ([], []) ∧
      chatTurn [] ([ 'a' ]) (.success (some [])) =
        ([⟨.user, [ 'a' ]⟩, ⟨.assistant, []⟩], []) := by
  constructor
  · exact (chat_empty_amended [] ([ ' ' ])).1 .failure (by decide)
  · have h := (chat_empty_amended [] ([ 'a' ])).2.2 (some []) (by decide)
    rw [h]
    decide

/-! ## Claim C5: decoder rejection behavior -/

/-- C5 counterexample: a too-short input and a 44-byte input with a wrong
RIFF magic are rejected with the *same* undifferentiated value (the
source's `null`), so the failure kinds are not distinguished. -/
theorem parse_reject_counterexample :
    parseWavPcm16 [] = .nullResult ∧
      parseWavPcm16 (List.replicate 44 0) = .nullResult := by
  constructor
  · decide
  · decide

/-- C5 amended: `parseWavPcm16` rejects inputs shorter than 44 bytes,
inputs whose (7-bit-masked) RIFF/WAVE magic bytes are wrong, inputs missing
the fmt or data sub-chunk, and inputs declaring a non-PCM format tag or
bits-per-sample other than 16 — but every rejection returns the same single
failure value (`null`), not a distinct failure kind per case. -/
theorem parse_reject_amended (buf : List Nat) :
    (buf.length < 44 → parseWavPcm16 buf = .nullResult) ∧
      (ascii4 buf 0 ≠ riffCC → parseWavPcm16 buf = .nullResult) ∧
      (ascii4 buf 8 ≠ waveCC → parseWavPcm16 buf = .nullResult) ∧
      (findChunk buf fmtCC 12 = none ∨ findChunk buf dataCC 12 = none →
        parseWavPcm16 buf = .nullResult) ∧
      (∀ f af chn sr bps, findChunk buf fmtCC 12 = some f →
        readUInt16LEOpt buf (f.dataOff + 0) = some af →
        readUInt16LEOpt buf (f.dataOff + 2) = some chn →
        readUInt32LEOpt buf (f.dataOff + 4) = some sr →
        readUInt16LEOpt buf (f.dataOff + 14) = some bps →
        af ≠ 1 ∨ bps ≠ 16 → parseWavPcm16 buf = .nullResult) := by
  refine ⟨fun h => ?_, fun h => ?_, fun h => ?_, fun h => ?_, ?_⟩
  · simp [parseWavPcm16, h]
  · by_cases hl : buf.length < 44
    · simp [parseWavPcm16, hl]
    · simp [parseWavPcm16, hl, h]
  · by_cases hl : buf.length < 44
    · simp [parseWavPcm16, hl]
    · by_cases h0 : ascii4 buf 0 = riffCC
      · simp [parseWavPcm16, hl, h0, h]
      · simp [parseWavPcm16, hl, h0]
  · by_cases hl : buf.length < 44
    · simp [parseWavPcm16, hl]
    · by_cases h0 : ascii4 buf 0 = riffCC
      · by_cases h8 : ascii4 buf 8 = waveCC
        · rcases h with h | h <;> simp [parseWavPcm16, hl, h0, h8, h]
        · simp [parseWavPcm16, hl, h0, h8]
      · simp [parseWavPcm16, hl, h0]
  · intro f af chn sr bps hf h0 h2 h4 h14 hbad
    simp only [Nat.add_zero] at h0
    by_cases hl : buf.length < 44
    · simp [parseWavPcm16, hl]
    · by_cases ha0 : ascii4 buf 0 = riffCC
      · by_cases ha8 : ascii4 buf 8 = waveCC
        · rcases hd : findChunk buf dataCC 12 with _ | d
          · simp [parseWavPcm16, hl, ha0, ha8, hf, hd]
          · rcases hbad with hb | hb <;>
              simp [parseWavPcm16, hl, ha0, ha8, hf, hd, h0, h2, h4, h14, hb]
        · simp [parseWavPcm16, hl, ha0, ha8]
      · simp [parseWavPcm16, hl, ha0]

/-- Witness for C5's amended statement: the too-short case and the
broken-magic case both yield the single `null` failure value. -/
theorem parse_reject_amended_witness :
    parseWavPcm16 [ 0, 1, 2 ] = .nullResult ∧
      parseWavPcm16 (List.replicate 44 1) = .nullResult :=
  ⟨(parse_reject_amended [ 0, 1, 2 ]).1 (by decide),
    (parse_reject_amended (List.replicate 44 1)).2.1 (by decide)⟩

/-! ## Helper lemmas: two-byte sample lists -/

lemma writeInt16LE_length (v : Int) : (writeInt16LE v).length = 2 := rfl

/-- Reading back a written 16-bit sample recovers any value in the signed
16-bit range. -/
lemma readInt16LE_writeInt16LE (v : Int) (rest : List Nat)
    (hlo : -32768 ≤ v) (hhi : v ≤ 32767) :
    readInt16LE (writeInt16LE v ++ rest) 0 = v := by
  unfold readInt16LE writeInt16LE readUInt16LE byteAt
  have hv : v % 65536 = if 0 ≤ v then v else v + 65536 := by
    split <;> omega
  rcases le_or_lt 0 v with hpos | hneg
  · rw [if_pos hpos] at hv
    have hnat : (v % 65536).toNat = v.toNat := by omega
    simp only [List.cons_append, List.getD_cons_zero, List.getD_cons_succ, hnat]
    have h1 : v.toNat % 256 % 256 + 256 * (v.toNat / 256 % 256) = v.toNat := by omega
    rw [h1]
    rw [if_pos (by omega)]
    omega
  · rw [if_neg (by omega)] at hv
    have hnat : (v % 65536).toNat = (v + 65536).toNat := by omega
    simp only [List.cons_append, List.getD_cons_zero, List.getD_cons_succ, hnat]
    have h1 : (v + 65536).toNat % 256 % 256 + 256 * ((v + 65536).toNat / 256 % 256)
        = (v + 65536).toNat := by omega
    rw [h1]
    rw [if_neg (by omega)]
    omega

/-- Every decoded 16-bit sample lies in the signed 16-bit range. -/
lemma readInt16LE_range (buf : List Nat) (off : Nat) :
    -32768 ≤ readInt16LE buf off ∧ readInt16LE buf off ≤ 32767 := by
  simp only [readInt16LE, readUInt16LE, byteAt]
  have h1 : buf.getD off 0 % 256 < 256 := by omega
  have h2 : buf.getD (off + 1) 0 % 256 < 256 := by omega
  split <;> omega

/-- Length of a buffer assembled from one two-byte sample per index. -/
lemma flatMap_pair_length {α : Type} (l : List α) (f : α → List Nat)
    (hf : ∀ a, (f a).length = 2) : (l.flatMap f).length = 2 * l.length := by
  induction l with
  | nil => simp
  | cons a l ih => simp [List.flatMap_cons, hf a, ih]; omega

/-- Sample `i` of a buffer assembled from one two-byte sample per index is
the written sample for element `i`. -/
lemma readInt16LE_flatMap {α : Type} (l : List α) (f : α → List Nat)
    (hf : ∀ a, (f a).length = 2) (i : Nat) (hi : i < l.length) :
    readInt16LE (l.flatMap f) (2 * i) = readInt16LE (f (l.get ⟨i, hi⟩)) 0 := by
  induction l generalizing i with
  | nil => simp at hi
  | cons a l ih =>
    obtain ⟨x, y, hxy⟩ := List.length_eq_two.mp (hf a)
    rcases i with _ | j
    · simp only [List.flatMap_cons, List.get]
      rw [hxy]
      rfl
    · have hj : j < l.length := by simpa using hi
      have : readInt16LE ((a :: l).flatMap f) (2 * (j + 1))
          = readInt16LE (l.flatMap f) (2 * j) := by
        rw [List.flatMap_cons, hxy]
        unfold readInt16LE readUInt16LE byteAt
        have e1 : 2 * (j + 1) = 2 * j + 1 + 1 := by omega
        rw [e1]
        simp only [List.cons_append, List.nil_append, List.getD_cons_succ]
      rw [this, ih j hj]
      rfl

/-- The arithmetic shift `(L + R) >> 1` is Euclidean division by two, which
`omega` can reason about. -/
lemma sar1_eq_ediv (x : Int) : sar1 x = x / 2 :=
  Int.fdiv_eq_ediv x (by norm_num)

/-! ## Claim C3: stereo-to-mono downmix -/

/-- C3: on any byte buffer, the downmix yields exactly one mono sample per
complete 4-byte stereo frame (a trailing incomplete frame is dropped, not
an error), and sample `i` equals `(L + R) >> 1` of frame `i` in
two's-complement arithmetic (average rounded toward negative infinity). -/
theorem stereo_downmix_spec (b : List Nat) :
    (stereoToMonoPcm16 b).length = 2 * (b.length / 4) ∧
      ∀ i, i < b.length / 4 →
        readInt16LE (stereoToMonoPcm16 b) (2 * i)
          = sar1 (readInt16LE b (i * 4) + readInt16LE b (i * 4 + 2)) := by
  constructor
  · unfold stereoToMonoPcm16
    rw [flatMap_pair_length _ _ (fun a => writeInt16LE_length _)]
    simp
  · intro i hi
    unfold stereoToMonoPcm16
    rw [readInt16LE_flatMap _ _ (fun a => writeInt16LE_length _) i (by simpa using hi)]
    simp only [List.get_eq_getElem, List.getElem_range]
    have hL := readInt16LE_range b (i * 4)
    have hR := readInt16LE_range b (i * 4 + 2)
    apply readInt16LE_writeInt16LE _ []
    · rw [sar1_eq_ediv]
      omega
    · rw [sar1_eq_ediv]
      omega

/-- Witness for C3 at a concrete 6-byte buffer (one complete frame with
samples -1 and 2, plus two trailing bytes that are dropped). -/
theorem stereo_downmix_spec_witness :
    (stereoToMonoPcm16 [255, 255, 2, 0, 9, 9]).length = 2 ∧
      readInt16LE (stereoToMonoPcm16 [255, 255, 2, 0, 9, 9]) 0
        = sar1 (readInt16LE [255, 255, 2, 0, 9, 9] 0 + readInt16LE [255, 255, 2, 0, 9, 9] 2) := by
  have h := stereo_downmix_spec [255, 255, 2, 0, 9, 9]
  refine ⟨by rw [h.1]; norm_num, ?_⟩
  have h2 := h.2 0 (by norm_num)
  simpa using h2

/-! ## Helper lemmas: linear interpolation bounds -/

lemma floor_intCast_add_half (n : Int) : Int.floor ((n : ℚ) + 1 / 2) = n := by
  rw [Int.floor_eq_iff]
  constructor
  · norm_num
  · norm_num

/-- Reading back a sample written as `writeInt16LE v` alone. -/
lemma readInt16LE_writeInt16LE_nil (v : Int) (hlo : -32768 ≤ v) (hhi : v ≤ 32767) :
    readInt16LE (writeInt16LE v) 0 = v := by
  have h := readInt16LE_writeInt16LE v [] hlo hhi
  simpa using h

/-- `Math.round(s0 + (s1 - s0) * frac)` stays in the closed interval spanned
by the two endpoints whenever `0 ≤ frac < 1`. -/
lemma jsRound_between (s0 s1 : Int) (frac : ℚ) (hf0 : 0 ≤ frac) (hf1 : frac < 1) :
    min s0 s1 ≤ jsRound ((s0 : ℚ) + ((s1 : ℚ) - (s0 : ℚ)) * frac) ∧
      jsRound ((s0 : ℚ) + ((s1 : ℚ) - (s0 : ℚ)) * frac) ≤ max s0 s1 := by
  unfold jsRound
  have hlo : ((min s0 s1 : Int) : ℚ) ≤ (s0 : ℚ) + ((s1 : ℚ) - (s0 : ℚ)) * frac := by
    rcases le_total s0 s1 with h | h
    · have hd : (0 : ℚ) ≤ (s1 : ℚ) - (s0 : ℚ) := by
        have : (s0 : ℚ) ≤ (s1 : ℚ) := by exact_mod_cast h
        linarith
      have := mul_nonneg hd hf0
      rw [min_eq_left h]
      linarith
    · have hd : (s1 : ℚ) - (s0 : ℚ) ≤ 0 := by
        have : (s1 : ℚ) ≤ (s0 : ℚ) := by exact_mod_cast h
        linarith
      have hm := mul_le_mul_of_nonpos_left (le_of_lt hf1) hd
      rw [min_eq_right h]
      nlinarith
  have hhi : (s0 : ℚ) + ((s1 : ℚ) - (s0 : ℚ)) * frac ≤ ((max s0 s1 : Int) : ℚ) := by
    rcases le_total s0 s1 with h | h
    · have hd : (0 : ℚ) ≤ (s1 : ℚ) - (s0 : ℚ) := by
        have : (s0 : ℚ) ≤ (s1 : ℚ) := by exact_mod_cast h
        linarith
      have hm : ((s1 : ℚ) - (s0 : ℚ)) * frac ≤ ((s1 : ℚ) - (s0 : ℚ)) * 1 :=
        mul_le_mul_of_nonneg_left (le_of_lt hf1) hd
      rw [max_eq_right h]
      linarith
    · have hd : (s1 : ℚ) - (s0 : ℚ) ≤ 0 := by
        have : (s1 : ℚ) ≤ (s0 : ℚ) := by exact_mod_cast h
        linarith
      have := mul_nonneg (neg_nonneg.mpr hd) hf0
      rw [max_eq_left h]
      nlinarith
  constructor
  · calc (min s0 s1 : Int)
        = Int.floor (((min s0 s1 : Int) : ℚ) + 1 / 2) := (floor_intCast_add_half _).symm
      _ ≤ Int.floor ((s0 : ℚ) + ((s1 : ℚ) - (s0 : ℚ)) * frac + 1 / 2) :=
        Int.floor_le_floor (by linarith)
  · calc Int.floor ((s0 : ℚ) + ((s1 : ℚ) - (s0 : ℚ)) * frac + 1 / 2)
        ≤ Int.floor (((max s0 s1 : Int) : ℚ) + 1 / 2) := Int.floor_le_floor (by linarith)
      _ = max s0 s1 := floor_intCast_add_half _

/-- The fractional part `frac = t - i0` computed by the resampler satisfies
`0 ≤ frac < 1`. -/
lemma srcFrac_bounds (r1 r2 i : Nat) :
    0 ≤ srcPos r1 r2 i - ((srcIdx0 r1 r2 i : Nat) : ℚ) ∧
      srcPos r1 r2 i - ((srcIdx0 r1 r2 i : Nat) : ℚ) < 1 := by
  have ht : 0 ≤ srcPos r1 r2 i := by
    unfold srcPos
    positivity
  have hfl : (0 : Int) ≤ ⌊srcPos r1 r2 i⌋ := Int.floor_nonneg.mpr ht
  have hcast : ((srcIdx0 r1 r2 i : Nat) : ℚ) = ((⌊srcPos r1 r2 i⌋ : Int) : ℚ) := by
    unfold srcIdx0
    exact_mod_cast congrArg (fun z : Int => (z : ℚ)) (Int.toNat_of_nonneg hfl)
  rw [hcast]
  constructor
  · have := Int.floor_le (srcPos r1 r2 i)
    linarith
  · have := Int.lt_floor_add_one (srcPos r1 r2 i)
    linarith

/-! ## Claim C4: linear resampler output count and range -/

/-- C4: for distinct positive rates, the resampler emits exactly
`floor(samples * outRate / inRate)` samples (`2 ×` that many bytes), and
every output sample lies between its two interpolation endpoints
`s[i0]`, `s[i1]` — hence inside the signed 16-bit range — with no
overshoot. -/
theorem resample_linear_spec (pcm : List Nat) (r1 r2 : Nat)
    (hr1 : 0 < r1) (hr2 : 0 < r2) (hne : r1 ≠ r2) :
    (resamplePcm16MonoLinear pcm r1 r2).length = 2 * (pcm.length / 2 * r2 / r1) ∧
      ∀ i, i < pcm.length / 2 * r2 / r1 →
        min (readInt16LE pcm (srcIdx0 r1 r2 i * 2))
            (readInt16LE pcm (srcIdx1 r1 r2 i (pcm.length / 2) * 2))
          ≤ readInt16LE (resamplePcm16MonoLinear pcm r1 r2) (2 * i) ∧
        readInt16LE (resamplePcm16MonoLinear pcm r1 r2) (2 * i)
          ≤ max (readInt16LE pcm (srcIdx0 r1 r2 i * 2))
              (readInt16LE pcm (srcIdx1 r1 r2 i (pcm.length / 2) * 2)) ∧
        -32768 ≤ readInt16LE (resamplePcm16MonoLinear pcm r1 r2) (2 * i) ∧
        readInt16LE (resamplePcm16MonoLinear pcm r1 r2) (2 * i) ≤ 32767 := by
  constructor
  · unfold resamplePcm16MonoLinear
    rw [if_neg hne]
    rw [flatMap_pair_length _ _ (fun a => writeInt16LE_length _)]
    simp
  · intro i hi
    have hrw : readInt16LE (resamplePcm16MonoLinear pcm r1 r2) (2 * i)
        = jsRound ((readInt16LE pcm (srcIdx0 r1 r2 i * 2) : ℚ)
            + ((readInt16LE pcm (srcIdx1 r1 r2 i (pcm.length / 2) * 2) : ℚ)
                - (readInt16LE pcm (srcIdx0 r1 r2 i * 2) : ℚ))
              * (srcPos r1 r2 i - ((srcIdx0 r1 r2 i : Nat) : ℚ))) := by
      unfold resamplePcm16MonoLinear
      rw [if_neg hne]
      rw [readInt16LE_flatMap _ _ (fun a => writeInt16LE_length _) i (by simpa using hi)]
      simp only [List.get_eq_getElem, List.getElem_range]
      have hs0 := readInt16LE_range pcm (srcIdx0 r1 r2 i * 2)
      have hs1 := readInt16LE_range pcm (srcIdx1 r1 r2 i (pcm.length / 2) * 2)
      have hfrac := srcFrac_bounds r1 r2 i
      have hb := jsRound_between (readInt16LE pcm (srcIdx0 r1 r2 i * 2))
        (readInt16LE pcm (srcIdx1 r1 r2 i (pcm.length / 2) * 2)) _ hfrac.1 hfrac.2
      exact readInt16LE_writeInt16LE_nil _ (by omega) (by omega)
    rw [hrw]
    have hs0 := readInt16LE_range pcm (srcIdx0 r1 r2 i * 2)
    have hs1 := readInt16LE_range pcm (srcIdx1 r1 r2 i (pcm.length / 2) * 2)
    have hfrac := srcFrac_bounds r1 r2 i
    have hb := jsRound_between (readInt16LE pcm (srcIdx0 r1 r2 i * 2))
      (readInt16LE pcm (srcIdx1 r1 r2 i (pcm.length / 2) * 2)) _ hfrac.1 hfrac.2
    exact ⟨hb.1, hb.2, by omega, by omega⟩

/-- Witness for C4: downsampling a two-sample buffer from 24000 Hz to
16000 Hz produces one sample bounded by its endpoints. -/
theorem resample_linear_spec_witness :
    (resamplePcm16MonoLinear [100, 0, 200, 0] 24000 16000).length
        = 2 * ([100, 0, 200, 0].length / 2 * 16000 / 24000) ∧
      min (readInt16LE [100, 0, 200, 0] (srcIdx0 24000 16000 0 * 2))
          (readInt16LE [100, 0, 200, 0] (srcIdx1 24000 16000 0 ([100, 0, 200, 0].length / 2) * 2))
        ≤ readInt16LE (resamplePcm16MonoLinear [100, 0, 200, 0] 24000 16000) 0 := by
  have h := resample_linear_spec [100, 0, 200, 0] 24000 16000 (by norm_num) (by norm_num)
    (by norm_num)
  refine ⟨h.1, ?_⟩
  have h2 := (h.2 0 (by norm_num)).1
  simpa using h2

/-! ## Claim C7: the `/tts` normalization target format -/

/-- Output byte count of the resampler at distinct rates (shared helper). -/
lemma resample_length (pcm : List Nat) (r1 r2 : Nat) (hne : r1 ≠ r2) :
    (resamplePcm16MonoLinear pcm r1 r2).length = 2 * (pcm.length / 2 * r2 / r1) := by
  unfold resamplePcm16MonoLinear
  rw [if_neg hne]
  rw [flatMap_pair_length _ _ (fun a => writeInt16LE_length _)]
  simp

/-- Output byte count of the downmixer (shared helper). -/
lemma stereoToMono_length (b : List Nat) :
    (stereoToMonoPcm16 b).length = 2 * (b.length / 4) := by
  unfold stereoToMonoPcm16
  rw [flatMap_pair_length _ _ (fun a => writeInt16LE_length _)]
  simp

/-- C7 counterexample: when the synthesis provider returns stereo PCM at
24000 Hz, the pipeline emits a container whose header declares sample rate
24000 — not 16000 as the claim's scenario asserts; the code's fixed target
is `TARGET_RATE = 24000`, so no resampling to 16000 ever happens. -/
theorem tts_target_rate_counterexample :
    ∃ inBytes out, pcm16ToWavBuffer [0, 0, 0, 0] 24000 2 = some inBytes ∧
      ttsNormalize inBytes = some out ∧
      readUInt32LE out 24 = 24000 ∧ readUInt32LE out 24 ≠ 16000 := by
  have h := parse_encode [0, 0, 0, 0] 24000 2 1 (Or.inr rfl) (by decide) (by decide)
    (by decide)
  have hout := pcm16ToWavBuffer_eq [0, 0] 24000 1 1 (Or.inl rfl) (by decide) (by decide)
    (by decide) (by decide)
  have hs : stereoToMonoPcm16 [0, 0, 0, 0] = [0, 0] := by decide
  refine ⟨_, encBytes (36 + [0, 0].length) 1 24000 (24000 * (1 * 2)) (1 * 2)
    [0, 0].length [0, 0], h.1, ?_, ?_, ?_⟩
  · unfold ttsNormalize
    rw [h.2]
    dsimp only
    norm_num
    rw [hs]
    exact hout
  · rw [encBytes_read24]
  · rw [encBytes_read24]
    norm_num

/-- C7 amended: when the provider returns a 44-byte stereo PCM16 WAVE image
at a rate other than the code's fixed device target of 24000 Hz (for
example 16000 Hz), and the normalized payload's header fields fit their
32-bit widths, the pipeline applies downmix then resample, and the emitted
container header declares channels = 1, sampleRate = 24000, and a data
length equal to the byte length of the downmixed-then-resampled payload. -/
theorem tts_normalize_amended (pcm : List Nat) (a br ba rate n : Nat)
    (hr0 : 0 < rate) (hr : rate < 4294967296) (hrne : rate ≠ 24000)
    (hlen : pcm.length = 2 * 2 * n) (hL : pcm.length < 4294967296)
    (hout : 36 + (resamplePcm16MonoLinear (stereoToMonoPcm16 pcm) rate 24000).length
      < 4294967296) :
    ttsNormalize (encBytes a 2 rate br ba pcm.length pcm)
        = pcm16ToWavBuffer
            (resamplePcm16MonoLinear (stereoToMonoPcm16 pcm) rate 24000) 24000 1 ∧
      ∃ out, pcm16ToWavBuffer
            (resamplePcm16MonoLinear (stereoToMonoPcm16 pcm) rate 24000) 24000 1
          = some out ∧
        readUInt16LE out 22 = 1 ∧ readUInt32LE out 24 = 24000 ∧
        readUInt32LE out 40
          = (resamplePcm16MonoLinear (stereoToMonoPcm16 pcm) rate 24000).length := by
  have hparse : parseWavPcm16 (encBytes a 2 rate br ba pcm.length pcm)
      = .parsed ⟨rate, 2, pcm⟩ :=
    parse_encBytes a 2 rate br ba pcm.length pcm (by omega) hr rfl hL
  have hq : (resamplePcm16MonoLinear (stereoToMonoPcm16 pcm) rate 24000).length
      = 2 * 1 * ((stereoToMonoPcm16 pcm).length / 2 * 24000 / rate) := by
    rw [resample_length _ _ _ hrne]
  have henc := pcm16ToWavBuffer_eq
    (resamplePcm16MonoLinear (stereoToMonoPcm16 pcm) rate 24000) 24000 1
    ((stereoToMonoPcm16 pcm).length / 2 * 24000 / rate) (Or.inl rfl) hq
    (by omega) (by norm_num) (by norm_num)
  refine ⟨?_, _, henc, ?_, ?_, ?_⟩
  · unfold ttsNormalize
    rw [hparse]
    simp [hrne]
  · rw [encBytes_read22]
  · rw [encBytes_read24]
  · rw [encBytes_read40]
    omega

/-- Witness for C7's amended statement: one stereo frame at 16000 Hz. -/
theorem tts_normalize_amended_witness :
    ttsNormalize (encBytes 40 2 16000 64000 4 4 [0, 0, 0, 0])
        = pcm16ToWavBuffer
            (resamplePcm16MonoLinear (stereoToMonoPcm16 [0, 0, 0, 0]) 16000 24000) 24000 1 ∧
      ∃ out, pcm16ToWavBuffer
            (resamplePcm16MonoLinear (stereoToMonoPcm16 [0, 0, 0, 0]) 16000 24000) 24000 1
          = some out ∧
        readUInt16LE out 22 = 1 ∧ readUInt32LE out 24 = 24000 ∧
        readUInt32LE out 40
          = (resamplePcm16MonoLinear (stereoToMonoPcm16 [0, 0, 0, 0]) 16000 24000).length := by
  have h := tts_normalize_amended [0, 0, 0, 0] 40 64000 4 16000 1 (by norm_num)
    (by norm_num) (by norm_num) (by norm_num) (by norm_num)
    (by rw [resample_length _ _ _ (by norm_num)]; decide)
  exact h

/-! ## Claim C10: decoder totality and payload truncation -/

lemma readUInt16LEOpt_none (buf : List Nat) (off : Nat)
    (h : readUInt16LEOpt buf off = none) : buf.length < off + 2 := by
  unfold readUInt16LEOpt at h
  by_cases hb : off + 2 ≤ buf.length
  · rw [if_pos hb] at h
    cases h
  · omega

lemma readUInt32LEOpt_none (buf : List Nat) (off : Nat)
    (h : readUInt32LEOpt buf off = none) : buf.length < off + 4 := by
  unfold readUInt32LEOpt at h
  by_cases hb : off + 4 ≤ buf.length
  · rw [if_pos hb] at h
    cases h
  · omega

/-- A 52-byte input that places the located "fmt " chunk header at the very
end of the buffer: WAVE magic, then a zero-size "data" chunk, a 16-byte
"JUNK" chunk, and finally "fmt " whose declared fields lie past the end.
On it the source's `parseWavPcm16` reaches `buf.readUInt16LE(fmt.dataOff)`
with `fmt.dataOff = 52 = buf.length` and throws a `RangeError`. -/
def fmtAtTailBuf : List Nat :=
  [82, 73, 70, 70, 0, 0, 0, 0, 87, 65, 86, 69,
   100, 97, 116, 97, 0, 0, 0, 0,
   74, 85, 78, 75, 16, 0, 0, 0,
   0, 0, 0, 0, 0, 0, 0, 0, 0, 0, 0, 0, 0, 0, 0, 0,
   102, 109, 116, 32, 0, 0, 0, 0]

lemma fmtAtTailBuf_findChunk_fmt : findChunk fmtAtTailBuf fmtCC 12 = some ⟨0, 52⟩ := by
  rw [findChunk_step _ _ _ (by decide)]
  rw [if_neg (by decide)]
  have e1 : readUInt32LE fmtAtTailBuf (12 + 4) = 0 := by decide
  rw [e1]
  norm_num
  rw [findChunk_step _ _ _ (by decide)]
  rw [if_neg (by decide)]
  have e2 : readUInt32LE fmtAtTailBuf (20 + 4) = 16 := by decide
  rw [e2]
  norm_num
  rw [findChunk_step _ _ _ (by decide)]
  rw [if_pos (by decide)]
  have e3 : readUInt32LE fmtAtTailBuf (44 + 4) = 0 := by decide
  rw [e3]

lemma fmtAtTailBuf_findChunk_data : findChunk fmtAtTailBuf dataCC 12 = some ⟨0, 20⟩ := by
  rw [findChunk_step _ _ _ (by decide)]
  rw [if_pos (by decide)]
  have e1 : readUInt32LE fmtAtTailBuf (12 + 4) = 0 := by decide
  rw [e1]

/-- C10 counterexample: `parseWavPcm16` is not exception-free — on
`fmtAtTailBuf` it neither fails with `null` nor succeeds, but performs an
out-of-bounds `readUInt16LE` at offset 52 of a 52-byte buffer, which throws
a `RangeError` in the source. -/
theorem parse_total_counterexample :
    parseWavPcm16 fmtAtTailBuf = .rangeError ∧
      parseWavPcm16 fmtAtTailBuf ≠ .nullResult ∧
      ∀ w, parseWavPcm16 fmtAtTailBuf ≠ .parsed w := by
  have h : parseWavPcm16 fmtAtTailBuf = .rangeError := by
    unfold parseWavPcm16
    rw [if_neg (by decide), if_neg (by decide), if_neg (by decide)]
    rw [fmtAtTailBuf_findChunk_fmt, fmtAtTailBuf_findChunk_data]
    dsimp only
    rw [readUInt16LEOpt, if_neg (by decide)]
  refine ⟨h, by rw [h]; decide, fun w => by rw [h]; exact fun h2 => ParseResult.noConfusion h2⟩

/-- C10 amended: the decoder never reads past the end of the buffer
*except* through the four fmt-field reads: a successful parse always
returns the located data chunk's slice, silently truncated to the end of
the buffer (its length is `min size (length - dataOff)`, which can be
shorter than the declared size), while a `RangeError` is thrown exactly
from the fmt-field reads, and only when the located fmt chunk's 16 bytes
of fields extend past the end of the input. -/
theorem parse_total_amended (buf : List Nat) :
    (∀ w, parseWavPcm16 buf = .parsed w →
      ∃ c, findChunk buf dataCC 12 = some c ∧
        w.pcm = (buf.drop c.dataOff).take c.size ∧
        w.pcm.length = min c.size (buf.length - c.dataOff)) ∧
      (parseWavPcm16 buf = .rangeError →
        ∃ f, findChunk buf fmtCC 12 = some f ∧ buf.length < f.dataOff + 16) := by
  constructor
  · intro w h
    unfold parseWavPcm16 at h
    by_cases h44 : buf.length < 44
    · rw [if_pos h44] at h
      cases h
    rw [if_neg h44] at h
    by_cases ha0 : ascii4 buf 0 ≠ riffCC
    · rw [if_pos ha0] at h
      cases h
    rw [if_neg ha0] at h
    by_cases ha8 : ascii4 buf 8 ≠ waveCC
    · rw [if_pos ha8] at h
      cases h
    rw [if_neg ha8] at h
    rcases hf : findChunk buf fmtCC 12 with _ | f
    · rw [hf] at h
      dsimp only at h
      cases h
    rw [hf] at h
    rcases hd : findChunk buf dataCC 12 with _ | d
    · rw [hd] at h
      dsimp only at h
      cases h
    rw [hd] at h
    dsimp only at h
    rcases hr1 : readUInt16LEOpt buf (f.dataOff + 0) with _ | af
    · rw [hr1] at h
      dsimp only at h
      cases h
    rw [hr1] at h
    rcases hr2 : readUInt16LEOpt buf (f.dataOff + 2) with _ | chn
    · rw [hr2] at h
      dsimp only at h
      cases h
    rw [hr2] at h
    rcases hr3 : readUInt32LEOpt buf (f.dataOff + 4) with _ | sr
    · rw [hr3] at h
      dsimp only at h
      cases h
    rw [hr3] at h
    rcases hr4 : readUInt16LEOpt buf (f.dataOff + 14) with _ | bps
    · rw [hr4] at h
      dsimp only at h
      cases h
    rw [hr4] at h
    dsimp only at h
    by_cases haf : af ≠ 1
    · rw [if_pos haf] at h
      cases h
    rw [if_neg haf] at h
    by_cases hbps : bps ≠ 16
    · rw [if_pos hbps] at h
      cases h
    rw [if_neg hbps] at h
    injection h with h
    subst h
    exact ⟨d, rfl, rfl, by simp [List.length_take, List.length_drop]⟩
  · intro h
    unfold parseWavPcm16 at h
    by_cases h44 : buf.length < 44
    · rw [if_pos h44] at h
      cases h
    rw [if_neg h44] at h
    by_cases ha0 : ascii4 buf 0 ≠ riffCC
    · rw [if_pos ha0] at h
      cases h
    rw [if_neg ha0] at h
    by_cases ha8 : ascii4 buf 8 ≠ waveCC
    · rw [if_pos ha8] at h
      cases h
    rw [if_neg ha8] at h
    rcases hf : findChunk buf fmtCC 12 with _ | f
    · rw [hf] at h
      dsimp only at h
      cases h
    rw [hf] at h
    rcases hd : findChunk buf dataCC 12 with _ | d
    · rw [hd] at h
      dsimp only at h
      cases h
    rw [hd] at h
    dsimp only at h
    refine ⟨f, rfl, ?_⟩
    rcases hr1 : readUInt16LEOpt buf (f.dataOff + 0) with _ | af
    · have := readUInt16LEOpt_none _ _ hr1
      omega
    rw [hr1] at h
    rcases hr2 : readUInt16LEOpt buf (f.dataOff + 2) with _ | chn
    · have := readUInt16LEOpt_none _ _ hr2
      omega
    rw [hr2] at h
    rcases hr3 : readUInt32LEOpt buf (f.dataOff + 4) with _ | sr
    · have := readUInt32LEOpt_none _ _ hr3
      omega
    rw [hr3] at h
    rcases hr4 : readUInt16LEOpt buf (f.dataOff + 14) with _ | bps
    · have := readUInt16LEOpt_none _ _ hr4
      omega
    rw [hr4] at h
    dsimp only at h
    by_cases haf : af ≠ 1
    · rw [if_pos haf] at h
      cases h
    rw [if_neg haf] at h
    by_cases hbps : bps ≠ 16
    · rw [if_pos hbps] at h
      cases h
    rw [if_neg hbps] at h
    cases h

/-- Witness for C10's amended statement, on a well-formed container whose
data chunk declares exactly the available bytes. -/
theorem parse_total_amended_witness :
    ∃ c, findChunk (encBytes 38 1 8000 16000 2 2 [7, 8]) dataCC 12 = some c ∧
      (WavPcm.mk 8000 1 [7, 8]).pcm
          = ((encBytes 38 1 8000 16000 2 2 [7, 8]).drop c.dataOff).take c.size ∧
      (WavPcm.mk 8000 1 [7, 8]).pcm.length
          = min c.size ((encBytes 38 1 8000 16000 2 2 [7, 8]).length - c.dataOff) :=
  (parse_total_amended (encBytes 38 1 8000 16000 2 2 [7, 8])).1 ⟨8000, 1, [7, 8]⟩
    (parse_encBytes 38 1 8000 16000 2 2 [7, 8] (by decide) (by decide) rfl (by decide))
